import Mathlib

/-!
Shallow embedding of the exercise cell-range extraction and HTML pagination
pipeline of `write_exercise_to_html.py` and its notebook variant
(`Example Notebook.py`, here `src/unnamed/part_000`).

Two implementations of the boundary locator `get_cell_loc` exist in the
repository; they are embedded in namespaces `WEH` (the plain script, full
scan, no end-default) and `ExNb` (the notebook variant, early break once
both recorded indices are positive, and `b = len(cells)` default when the
end heading is missing).
-/

set_option maxRecDepth 10000

/-- A notebook cell: `cell_type` and `source`.  In the notebook format the
source is either one string or a list of string fragments that the code
joins with `"".join`; a single string behaves exactly like the singleton
list, so `source` is embedded as a fragment list. -/
structure Cell where
  cell_type : String
  source : List String
deriving DecidableEq

/-- The concatenated text block of a cell (`"".join(cell["source"])`). -/
def Cell.text (c : Cell) : String := String.join c.source

/-- A parsed notebook: an ordered cell list plus the remaining
document-level metadata, which the code never touches (it only ever
reassigns the `"cells"` entry), embedded as one opaque field. -/
structure Notebook where
  cells : List Cell
  metadata : String
deriving DecidableEq

/-- `beginsWith needle l` : does `l` start with `needle`? -/
def beginsWith : List Char → List Char → Bool
  | [], _ => true
  | _ :: _, [] => false
  | a :: as, b :: bs => a == b && beginsWith as bs

/-- The literal tail of the heading regex for exercise `n`:
`"Exercise "` followed by the decimal digits of `n`
(Python `pattern.format(ex_num=n)` with `pattern = r"\#+.*Exercise " + "{ex_num}"`). -/
def needleOf (n : Nat) : List Char := ("Exercise " ++ toString n).data

/-- After the leading `#` of the regex `\#+.*Exercise n` has been consumed,
scan forward: `.` never matches a newline, so the needle must occur before
the next newline.  (`\#+.*` accepts exactly one `#` followed by arbitrary
non-newline characters, since `#` is itself a non-newline character.) -/
def scanAfterHash (needle : List Char) : List Char → Bool
  | [] => beginsWith needle []
  | c :: cs =>
    if beginsWith needle (c :: cs) then true
    else if c = '\n' then false
    else scanAfterHash needle cs

/-- `re.search(r"\#+.*Exercise " + str(n), s)` as a Bool over the char list
of `s`: an unanchored search for a `#` followed, on the same line, by the
literal `"Exercise "` and the digits of `n` (no boundary after the digits). -/
def reSearch (n : Nat) : List Char → Bool
  | [] => false
  | c :: cs => (c == '#' && scanAfterHash (needleOf n) cs) || reSearch n cs

/-- The condition under which the scan records a cell as the start
boundary: markdown, non-empty concatenated text, text matches the pattern
for `n`. -/
def isStartMatch (n : Nat) (c : Cell) : Bool :=
  (c.cell_type == "markdown") && !(c.text.length == 0) && reSearch n c.text.data

/-- The condition under which the scan records a cell as the end boundary:
markdown, non-empty text, does *not* match the pattern for `n` (the
`elif`), and matches the pattern for `n + 1`. -/
def isEndMatch (n : Nat) (c : Cell) : Bool :=
  (c.cell_type == "markdown") && !(c.text.length == 0) &&
    !(reSearch n c.text.data) && reSearch (n + 1) c.text.data

/-- One iteration of the `for i, cell in enumerate(notebook["cells"])`
body, updating the pair `(a, b)`. -/
def locStep (n i : Nat) (c : Cell) (ab : Int × Int) : Int × Int :=
  if c.cell_type == "markdown" then
    if c.text.length == 0 then ab
    else if reSearch n c.text.data then (Int.ofNat i, ab.2)
    else if reSearch (n + 1) c.text.data then (ab.1, Int.ofNat i)
    else ab
  else ab

/-- One Python slice bound, normalized the way CPython normalizes slice
indices on a list of length `len`: negative indices count from the end and
clamp at 0, non-negative ones clamp at `len`. -/
def pySliceIdx (len : Nat) (i : Int) : Nat :=
  if i < 0 then (Int.ofNat len + i).toNat else min i.toNat len

/-- Python `xs[a:b]` for possibly negative `a`, `b`. -/
def pySlice {α : Type} (xs : List α) (a b : Int) : List α :=
  (xs.take (pySliceIdx xs.length b)).drop (pySliceIdx xs.length a)

/-- The diagnostics `get_cell_loc` prints just before returning. -/
inductive LocError where
  | startNotFound
  | endNotFound
  | orderError
deriving DecidableEq

/-- The `if a == -1 / elif b == -1 / elif a >= b` print cascade of
`write_exercise_to_html.py`'s `get_cell_loc`, as a classifier of the pair
it is about to return (the function itself returns `(a, b)` unchanged). -/
def report_ab (a b : Int) : Option LocError :=
  if a = -1 then some LocError.startNotFound
  else if b = -1 then some LocError.endNotFound
  else if b ≤ a then some LocError.orderError
  else none

namespace WEH

/-- The scan loop of `get_cell_loc` in `write_exercise_to_html.py`:
no early exit, every cell is visited. -/
def locLoop (n : Nat) : Nat → List Cell → Int × Int → Int × Int
  | _, [], ab => ab
  | i, c :: cs, ab => locLoop n (i + 1) cs (locStep n i c ab)

/-- `get_cell_loc` of `write_exercise_to_html.py`: full scan from
`a = b = -1`; the trailing `if/elif` chain only prints, so the scanned
pair is returned as-is. -/
def get_cell_loc (nb : Notebook) (n : Nat) : Int × Int :=
  locLoop n 0 nb.cells (-1, -1)

/-- Which diagnostic (if any) `get_cell_loc` prints for this input. -/
def locReport (nb : Notebook) (n : Nat) : Option LocError :=
  report_ab (get_cell_loc nb n).1 (get_cell_loc nb n).2

/-- `get_exercise_from_lab` (minus the external nbconvert rendering):
locate, then reassign `lab_fmt["cells"] = lab_fmt["cells"][a:b]`.  The
document handed to the HTML exporter is the value returned here. -/
def get_exercise_from_lab (nb : Notebook) (n : Nat) : Notebook :=
  { nb with cells := pySlice nb.cells (get_cell_loc nb n).1 (get_cell_loc nb n).2 }

end WEH

namespace ExNb

/-- The scan loop of `get_cell_loc` in the notebook variant: after each
cell, `if (a > 0) and (b > 0): break`. -/
def locLoop (n : Nat) : Nat → List Cell → Int × Int → Int × Int
  | _, [], ab => ab
  | i, c :: cs, ab =>
    if 0 < (locStep n i c ab).1 ∧ 0 < (locStep n i c ab).2 then locStep n i c ab
    else locLoop n (i + 1) cs (locStep n i c ab)

/-- `get_cell_loc` of the notebook variant: scan with early break, then
`if a == -1: print / elif b == -1: print; b = len(notebook["cells"]) /
elif a >= b: print`, returning the (possibly defaulted) pair. -/
def get_cell_loc (nb : Notebook) (n : Nat) : Int × Int :=
  if (locLoop n 0 nb.cells (-1, -1)).1 = -1 then locLoop n 0 nb.cells (-1, -1)
  else if (locLoop n 0 nb.cells (-1, -1)).2 = -1 then
    ((locLoop n 0 nb.cells (-1, -1)).1, Int.ofNat nb.cells.length)
  else locLoop n 0 nb.cells (-1, -1)

/-- Single-exercise extraction of the notebook variant. -/
def get_exercise_from_lab (nb : Notebook) (n : Nat) : Notebook :=
  { nb with cells := pySlice nb.cells (get_cell_loc nb n).1 (get_cell_loc nb n).2 }

/-- `get_exercises_from_lab`: one independent `get_cell_loc` per requested
exercise number (`ab_list`), then `sum([cells[a:b] for a, b in ab_list], [])`,
i.e. concatenation of the slices in the order the numbers were given. -/
def get_exercises_from_lab (nb : Notebook) (ns : List Nat) : Notebook :=
  { nb with cells :=
      ((ns.map (fun m => get_cell_loc nb m)).map
        (fun ab => pySlice nb.cells ab.1 ab.2)).flatten }

end ExNb

/-- `num_pages = gid_list.size // spp + 1` as computed in both `__main__`
blocks. -/
def num_pages (count spp : Nat) : Nat := count / spp + 1

/-- The pagination dict
`{page: gid_list[spp * page : (spp * page + spp)] for page in range(num_pages)}`,
embedded as the list of pages in page order (page `k` at position `k`). -/
def gid_pages (gid_list : List String) (spp : Nat) : List (List String) :=
  (List.range (num_pages gid_list.length spp)).map
    (fun page => (gid_list.take (spp * page + spp)).drop (spp * page))

/-- The per-student label written before a student's rendered body:
`fp.write(f"\n\n<h1>{gid}</h1>\n\n")`. -/
def h1Fragment (gid : String) : String := "\n\n<h1>" ++ gid ++ "</h1>\n\n"

/-- The warning printed for a page member absent from `lab_files`. -/
def missingWarning (gid : String) : String :=
  "gid " ++ gid ++ " not found in lab_files.keys()."

/-- The fixed markup written at the top of every page file. -/
def pageHeader : String :=
  "<head>\n\t<link rel=\"stylesheet\" href=\"style0.css\">\n\t<link rel=\"stylesheet\" href=\"style1.css\">\n</head>\n\n<body>\n\n"

/-- The `for gid in gid_page` loop of `write_pages_to_files`: accumulate
the page body (sequential `fp.write` calls) and the missing-id warnings,
in page order.  `lab_files` maps student ids to raw lab strings;
`render lab` stands for the external `parser(lab, exercise_num)[0]`
(nbconvert) call, abstracted since rendering is an external collaborator. -/
def writePageBody (render : String → String) (lab_files : List (String × String)) :
    List String → String × List String
  | [] => ("", [])
  | gid :: gids =>
    let rest := writePageBody render lab_files gids
    match lab_files.lookup gid with
    | none => (rest.1, missingWarning gid :: rest.2)
    | some lab => (h1Fragment gid ++ render lab ++ rest.1, rest.2)

/-- The complete content of one page file: header, accumulated student
fragments, closing `</body>`. -/
def writePageFile (render : String → String) (lab_files : List (String × String))
    (gid_page : List String) : String :=
  pageHeader ++ (writePageBody render lab_files gid_page).1 ++ "</body>"

/-- Concatenation of a list of strings, used to state what the page body
amounts to. -/
def concatAll : List String → String
  | [] => ""
  | s :: rest => s ++ concatAll rest

/-- The fragment each student id present in `lab_files` contributes:
its `<h1>` label followed by its rendered body; absent ids contribute
nothing. -/
def fragmentsOf (render : String → String) (lab_files : List (String × String))
    (gid_page : List String) : List String :=
  gid_page.filterMap
    (fun gid => (lab_files.lookup gid).map (fun lab => h1Fragment gid ++ render lab))

/-- `IsLastMatch p xs v` : `v` is `-1` and no element of `xs` satisfies
`p`, or `v` is the index of the *last* element of `xs` satisfying `p`.
This is the specification-side description of what the scan of
`get_cell_loc` actually records (each match overwrites the variable). -/
def IsLastMatch (p : Cell → Bool) (xs : List Cell) (v : Int) : Prop :=
  (v = -1 ∧ xs.countP p = 0) ∨
    ∃ j c, v = Int.ofNat j ∧ xs.get? j = some c ∧ p c = true ∧
      (xs.drop (j + 1)).countP p = 0

/-- A markdown cell whose single source fragment is `s`. -/
def mdCell (s : String) : Cell := ⟨"markdown", [s]⟩

/-- A code cell (never inspected by the boundary scan). -/
def codeCell (s : String) : Cell := ⟨"code", [s]⟩

/-- Two markdown cells both carrying a heading for exercise 1. -/
def nbDup : Notebook := ⟨[mdCell "# Exercise 1", mdCell "# Exercise 1"], "meta"⟩

/-- One markdown cell with a heading for exercise 1 and no heading for
exercise 2 (a tail exercise). -/
def nbSolo : Notebook := ⟨[mdCell "# Exercise 1"], "meta"⟩

/-- The heading for exercise 2 appears *before* the heading for
exercise 1. -/
def nbSwap : Notebook := ⟨[mdCell "# Exercise 2", mdCell "# Exercise 1"], "meta"⟩

/-- A heading for exercise 2 but none for exercise 1. -/
def nbNoStart : Notebook := ⟨[mdCell "# Exercise 2"], "meta"⟩

/-- The 6-cell end-to-end scenario document: markdown headings for
exercise 2 at index 1 and exercise 3 at index 4. -/
def nbSix : Notebook :=
  ⟨[codeCell "c0", mdCell "## Exercise 2", codeCell "c2", codeCell "c3",
    mdCell "## Exercise 3", codeCell "c5"], "meta"⟩

/-- Headings for exercises 1 and 2, one match each. -/
def nbPair : Notebook := ⟨[mdCell "# Exercise 1", mdCell "# Exercise 2"], "meta"⟩

/-- A document whose only heading is for exercise 10. -/
def nbTen : Notebook := ⟨[mdCell "## Exercise 10"], "meta"⟩

theorem locStep_fst (n i : Nat) (c : Cell) (ab : Int × Int) :
    (locStep n i c ab).1 = if isStartMatch n c then Int.ofNat i else ab.1 := by
  unfold locStep isStartMatch
  cases h1 : (c.cell_type == "markdown") <;>
    cases h2 : (c.text.length == 0) <;>
      cases h3 : reSearch n c.text.data <;>
        cases h4 : reSearch (n + 1) c.text.data <;>
          simp [h1, h2, h3, h4]

theorem locStep_snd (n i : Nat) (c : Cell) (ab : Int × Int) :
    (locStep n i c ab).2 = if isEndMatch n c then Int.ofNat i else ab.2 := by
  unfold locStep isEndMatch
  cases h1 : (c.cell_type == "markdown") <;>
    cases h2 : (c.text.length == 0) <;>
      cases h3 : reSearch n c.text.data <;>
        cases h4 : reSearch (n + 1) c.text.data <;>
          simp [h1, h2, h3, h4]

theorem countP_cons_zero {p : Cell → Bool} {c : Cell} {cs : List Cell}
    (h : (c :: cs).countP p = 0) : p c = false ∧ cs.countP p = 0 := by
  rw [List.countP_cons] at h
  rcases Nat.add_eq_zero.mp h with ⟨h0, h1⟩
  refine ⟨?_, h0⟩
  cases hx : p c
  · rfl
  · rw [hx] at h1; simp at h1

theorem weh_fst_const (n : Nat) (cs : List Cell) :
    ∀ (i : Nat) (ab : Int × Int), cs.countP (isStartMatch n) = 0 →
      (WEH.locLoop n i cs ab).1 = ab.1 := by
  induction cs with
  | nil => intro i ab _; rfl
  | cons c cs ih =>
    intro i ab h
    obtain ⟨hc, h0⟩ := countP_cons_zero h
    simp only [WEH.locLoop]
    rw [ih (i + 1) _ h0, locStep_fst, hc]
    simp

theorem weh_snd_const (n : Nat) (cs : List Cell) :
    ∀ (i : Nat) (ab : Int × Int), cs.countP (isEndMatch n) = 0 →
      (WEH.locLoop n i cs ab).2 = ab.2 := by
  induction cs with
  | nil => intro i ab _; rfl
  | cons c cs ih =>
    intro i ab h
    obtain ⟨hc, h0⟩ := countP_cons_zero h
    simp only [WEH.locLoop]
    rw [ih (i + 1) _ h0, locStep_snd, hc]
    simp

theorem weh_locLoop_id (n : Nat) (cs : List Cell) (i : Nat) (ab : Int × Int)
    (hs : cs.countP (isStartMatch n) = 0) (he : cs.countP (isEndMatch n) = 0) :
    WEH.locLoop n i cs ab = ab :=
  Prod.ext (weh_fst_const n cs i ab hs) (weh_snd_const n cs i ab he)

theorem weh_fst_last (n : Nat) (cs : List Cell) :
    ∀ (i : Nat) (ab : Int × Int), 0 < cs.countP (isStartMatch n) →
      ∃ j c, cs.get? j = some c ∧ isStartMatch n c = true ∧
        (cs.drop (j + 1)).countP (isStartMatch n) = 0 ∧
        (WEH.locLoop n i cs ab).1 = Int.ofNat (i + j) := by
  induction cs with
  | nil => intro i ab h; simp at h
  | cons c cs ih =>
    intro i ab h
    simp only [WEH.locLoop]
    by_cases h0 : 0 < cs.countP (isStartMatch n)
    · obtain ⟨j, c', hget, hp, hd, hv⟩ := ih (i + 1) (locStep n i c ab) h0
      refine ⟨j + 1, c', by simpa using hget, hp, by simpa using hd, ?_⟩
      rw [hv]; congr 1; omega
    · have hcsz : cs.countP (isStartMatch n) = 0 := Nat.eq_zero_of_not_pos h0
      have hc : isStartMatch n c = true := by
        cases hx : isStartMatch n c
        · rw [List.countP_cons, hx, hcsz] at h; simp at h
        · rfl
      refine ⟨0, c, rfl, hc, by simpa using hcsz, ?_⟩
      rw [weh_fst_const n cs (i + 1) _ hcsz, locStep_fst, hc]
      simp

theorem weh_snd_last (n : Nat) (cs : List Cell) :
    ∀ (i : Nat) (ab : Int × Int), 0 < cs.countP (isEndMatch n) →
      ∃ j c, cs.get? j = some c ∧ isEndMatch n c = true ∧
        (cs.drop (j + 1)).countP (isEndMatch n) = 0 ∧
        (WEH.locLoop n i cs ab).2 = Int.ofNat (i + j) := by
  induction cs with
  | nil => intro i ab h; simp at h
  | cons c cs ih =>
    intro i ab h
    simp only [WEH.locLoop]
    by_cases h0 : 0 < cs.countP (isEndMatch n)
    · obtain ⟨j, c', hget, hp, hd, hv⟩ := ih (i + 1) (locStep n i c ab) h0
      refine ⟨j + 1, c', by simpa using hget, hp, by simpa using hd, ?_⟩
      rw [hv]; congr 1; omega
    · have hcsz : cs.countP (isEndMatch n) = 0 := Nat.eq_zero_of_not_pos h0
      have hc : isEndMatch n c = true := by
        cases hx : isEndMatch n c
        · rw [List.countP_cons, hx, hcsz] at h; simp at h
        · rfl
      refine ⟨0, c, rfl, hc, by simpa using hcsz, ?_⟩
      rw [weh_snd_const n cs (i + 1) _ hcsz, locStep_snd, hc]
      simp

theorem weh_loc_fst_lastMatch (nb : Notebook) (n : Nat) :
    IsLastMatch (isStartMatch n) nb.cells (WEH.get_cell_loc nb n).1 := by
  by_cases h : 0 < nb.cells.countP (isStartMatch n)
  · obtain ⟨j, c, hget, hp, hd, hv⟩ := weh_fst_last n nb.cells 0 (-1, -1) h
    exact Or.inr ⟨j, c, by simpa [WEH.get_cell_loc] using hv, hget, hp, hd⟩
  · have h0 := Nat.eq_zero_of_not_pos h
    exact Or.inl ⟨by simpa [WEH.get_cell_loc] using weh_fst_const n nb.cells 0 (-1, -1) h0, h0⟩

theorem weh_loc_snd_lastMatch (nb : Notebook) (n : Nat) :
    IsLastMatch (isEndMatch n) nb.cells (WEH.get_cell_loc nb n).2 := by
  by_cases h : 0 < nb.cells.countP (isEndMatch n)
  · obtain ⟨j, c, hget, hp, hd, hv⟩ := weh_snd_last n nb.cells 0 (-1, -1) h
    exact Or.inr ⟨j, c, by simpa [WEH.get_cell_loc] using hv, hget, hp, hd⟩
  · have h0 := Nat.eq_zero_of_not_pos h
    exact Or.inl ⟨by simpa [WEH.get_cell_loc] using weh_snd_const n nb.cells 0 (-1, -1) h0, h0⟩

theorem weh_loc_snd_cases (nb : Notebook) (n : Nat) :
    (WEH.get_cell_loc nb n).2 = -1 ∨
      ∃ j, j < nb.cells.length ∧ (WEH.get_cell_loc nb n).2 = Int.ofNat j := by
  rcases weh_loc_snd_lastMatch nb n with ⟨hv, _⟩ | ⟨j, c, hv, hget, _, _⟩
  · exact Or.inl hv
  · exact Or.inr ⟨j, (List.get?_eq_some.mp hget).choose, hv⟩

theorem exnb_locLoop_noEnd (n : Nat) (cs : List Cell) :
    ∀ (i : Nat) (a : Int), cs.countP (isEndMatch n) = 0 →
      ExNb.locLoop n i cs (a, -1) = WEH.locLoop n i cs (a, -1) := by
  induction cs with
  | nil => intro i a _; rfl
  | cons c cs ih =>
    intro i a h
    obtain ⟨hc, h0⟩ := countP_cons_zero h
    have hb : (locStep n i c (a, -1)).2 = -1 := by
      rw [locStep_snd, hc]; simp
    have hstep : locStep n i c (a, -1) = ((locStep n i c (a, -1)).1, -1) :=
      Prod.ext rfl hb
    simp only [ExNb.locLoop, WEH.locLoop]
    rw [if_neg (by rw [hb]; intro hcon; omega)]
    rw [hstep, ih (i + 1) _ h0]

theorem exnb_locLoop_eq_weh (n : Nat) (cs : List Cell) :
    ∀ (i : Nat) (a b : Int),
      (0 ≤ a → cs.countP (isStartMatch n) = 0) →
      (0 ≤ b → cs.countP (isEndMatch n) = 0) →
      cs.countP (isStartMatch n) ≤ 1 → cs.countP (isEndMatch n) ≤ 1 →
      ExNb.locLoop n i cs (a, b) = WEH.locLoop n i cs (a, b) := by
  induction cs with
  | nil => intro i a b _ _ _ _; rfl
  | cons c cs ih =>
    intro i a b ha hb hs1 he1
    have hsc : cs.countP (isStartMatch n) ≤ 1 := by
      rw [List.countP_cons] at hs1; omega
    have hec : cs.countP (isEndMatch n) ≤ 1 := by
      rw [List.countP_cons] at he1; omega
    have ha' : 0 ≤ (locStep n i c (a, b)).1 → cs.countP (isStartMatch n) = 0 := by
      intro hpos
      rw [locStep_fst] at hpos
      by_cases hx : isStartMatch n c = true
      · have hone : (c :: cs).countP (isStartMatch n)
            = cs.countP (isStartMatch n) + 1 := by
          rw [List.countP_cons, hx]; simp
        omega
      · rw [if_neg hx] at hpos
        exact (countP_cons_zero (ha hpos)).2
    have hb' : 0 ≤ (locStep n i c (a, b)).2 → cs.countP (isEndMatch n) = 0 := by
      intro hpos
      rw [locStep_snd] at hpos
      by_cases hx : isEndMatch n c = true
      · have hone : (c :: cs).countP (isEndMatch n)
            = cs.countP (isEndMatch n) + 1 := by
          rw [List.countP_cons, hx]; simp
        omega
      · rw [if_neg hx] at hpos
        exact (countP_cons_zero (hb hpos)).2
    simp only [ExNb.locLoop, WEH.locLoop]
    by_cases hbr : 0 < (locStep n i c (a, b)).1 ∧ 0 < (locStep n i c (a, b)).2
    · rw [if_pos hbr]
      rw [weh_locLoop_id n cs (i + 1) _ (ha' (le_of_lt hbr.1)) (hb' (le_of_lt hbr.2))]
    · rw [if_neg hbr]
      have := ih (i + 1) (locStep n i c (a, b)).1 (locStep n i c (a, b)).2 ha' hb' hsc hec
      simpa using this

theorem take_min {α : Type} (xs : List α) (b : Nat) :
    xs.take (min b xs.length) = xs.take b := by
  rcases le_total b xs.length with h | h
  · rw [min_eq_left h]
  · rw [min_eq_right h, List.take_length, List.take_of_length_le h]

theorem drop_min_of_take {α : Type} (xs : List α) (a b : Nat) :
    (xs.take b).drop (min a xs.length) = (xs.take b).drop a := by
  rcases le_total a xs.length with h | h
  · rw [min_eq_left h]
  · rw [min_eq_right h]
    rw [List.drop_of_length_le, List.drop_of_length_le]
    · calc (xs.take b).length ≤ xs.length := by rw [List.length_take]; omega
        _ ≤ a := h
    · rw [List.length_take]; omega

theorem pySliceIdx_coe (len a : Nat) : pySliceIdx len (Int.ofNat a) = min a len := by
  unfold pySliceIdx
  rw [Int.ofNat_eq_coe, if_neg (by omega)]
  omega

theorem pySlice_coe {α : Type} (xs : List α) (a b : Nat) :
    pySlice xs (Int.ofNat a) (Int.ofNat b) = (xs.take b).drop a := by
  unfold pySlice
  rw [pySliceIdx_coe, pySliceIdx_coe, take_min, drop_min_of_take]

theorem pySlice_nil_of_le {α : Type} (xs : List α) (a b : Int)
    (h : pySliceIdx xs.length b ≤ pySliceIdx xs.length a) : pySlice xs a b = [] := by
  unfold pySlice
  apply List.drop_of_length_le
  calc (xs.take (pySliceIdx xs.length b)).length ≤ pySliceIdx xs.length b := by
        rw [List.length_take]; omega
    _ ≤ pySliceIdx xs.length a := h

theorem pages_flatten_take (l : List String) (p m : Nat) :
    ((List.range m).map (fun k => (l.take (p * k + p)).drop (p * k))).flatten
      = l.take (p * m) := by
  induction m with
  | zero => simp
  | succ m ih =>
    rw [List.range_succ, List.map_append, List.flatten_append, ih]
    simp only [List.map_cons, List.map_nil, List.flatten_cons, List.flatten_nil,
      List.append_nil]
    rw [List.drop_take]
    have harg : p * m + p - p * m = p := by omega
    rw [harg, ← List.take_add, Nat.mul_succ]

theorem beginsWith_append (n1 t : List Char) :
    ∀ l, beginsWith (n1 ++ t) l = true → beginsWith n1 l = true := by
  induction n1 with
  | nil => intro l _; rfl
  | cons a as ih =>
    intro l h
    cases l with
    | nil => simp [beginsWith] at h
    | cons b bs =>
      simp only [List.cons_append, beginsWith, Bool.and_eq_true] at h ⊢
      exact ⟨h.1, ih bs h.2⟩

theorem beginsWith_exists (xs : List Char) :
    ∀ ys, beginsWith xs ys = true → ∃ t, ys = xs ++ t := by
  induction xs with
  | nil => intro ys _; exact ⟨ys, rfl⟩
  | cons a as ih =>
    intro ys h
    cases ys with
    | nil => simp [beginsWith] at h
    | cons b bs =>
      simp only [beginsWith, Bool.and_eq_true, beq_iff_eq] at h
      obtain ⟨t, ht⟩ := ih bs h.2
      exact ⟨t, by rw [← h.1, ht]; rfl⟩

theorem scanAfterHash_mono (n1 t : List Char) :
    ∀ l, scanAfterHash (n1 ++ t) l = true → scanAfterHash n1 l = true := by
  intro l
  induction l with
  | nil =>
    intro h
    rw [scanAfterHash] at h ⊢
    exact beginsWith_append n1 t [] h
  | cons c cs ih =>
    intro h
    rw [scanAfterHash] at h ⊢
    by_cases h1 : beginsWith n1 (c :: cs) = true
    · simp [h1]
    · have h2 : beginsWith (n1 ++ t) (c :: cs) = false := by
        cases hx : beginsWith (n1 ++ t) (c :: cs)
        · rfl
        · exact absurd (beginsWith_append n1 t _ hx) h1
      simp only [h2, Bool.false_eq_true, if_false] at h
      by_cases hnl : c = '\n'
      · simp [hnl] at h
      · simp only [hnl, if_false] at h
        simp only [h1, Bool.false_eq_true, if_false, hnl]
        exact ih h

theorem reSearch_mono (n m : Nat)
    (h : beginsWith (toString n).data (toString m).data = true) :
    ∀ l, reSearch m l = true → reSearch n l = true := by
  obtain ⟨t, ht⟩ := beginsWith_exists _ _ h
  have hneedle : needleOf m = needleOf n ++ t := by
    unfold needleOf
    rw [String.data_append, String.data_append, ht, List.append_assoc]
  intro l
  induction l with
  | nil => intro h2; exact h2
  | cons c cs ih =>
    intro h2
    rw [reSearch] at h2 ⊢
    rw [Bool.or_eq_true] at h2 ⊢
    rcases h2 with h2 | h2
    · rw [Bool.and_eq_true] at h2
      rw [hneedle] at h2
      exact Or.inl (Bool.and_eq_true _ _ |>.mpr ⟨h2.1, scanAfterHash_mono _ t _ h2.2⟩)
    · exact Or.inr (ih h2)

theorem isStartMatch_mono (n m : Nat) (c : Cell)
    (h : beginsWith (toString n).data (toString m).data = true)
    (hm : isStartMatch m c = true) : isStartMatch n c = true := by
  unfold isStartMatch at hm ⊢
  simp only [Bool.and_eq_true] at hm ⊢
  exact ⟨hm.1, reSearch_mono n m h _ hm.2⟩

theorem writePageBody_fst (render : String → String)
    (lab_files : List (String × String)) :
    ∀ page, (writePageBody render lab_files page).1
      = concatAll (fragmentsOf render lab_files page) := by
  intro page
  induction page with
  | nil => rfl
  | cons gid gids ih =>
    rw [writePageBody]
    cases hl : lab_files.lookup gid with
    | none =>
      simp only [hl]
      rw [ih]
      simp [fragmentsOf, List.filterMap_cons, hl]
    | some lab =>
      simp only [hl]
      rw [ih]
      simp [fragmentsOf, List.filterMap_cons, hl, concatAll, String.append_assoc]

theorem writePageBody_snd (render : String → String)
    (lab_files : List (String × String)) :
    ∀ page, (writePageBody render lab_files page).2
      = (page.filter (fun gid => (lab_files.lookup gid).isNone)).map missingWarning := by
  intro page
  induction page with
  | nil => rfl
  | cons gid gids ih =>
    rw [writePageBody]
    cases hl : lab_files.lookup gid with
    | none =>
      simp only [hl]
      rw [List.filter_cons]
      simp only [hl, Option.isNone_none, if_true, List.map_cons]
      rw [ih]
    | some lab =>
      simp only [hl]
      rw [List.filter_cons]
      simp only [hl, Option.isNone_some, Bool.false_eq_true, if_false]
      exact ih


/-- Claim C1, counterexample: in `nbDup` the FIRST markdown cell matching
the heading pattern for exercise 1 sits at index 0, yet both versions of
`get_cell_loc` record start index 1 — the recorded boundary *is*
overwritten by the later matching cell, so first-match-wins is false. -/
theorem c1_counterexample :
    isStartMatch 1 (mdCell "# Exercise 1") = true ∧
    nbDup.cells.get? 0 = some (mdCell "# Exercise 1") ∧
    (WEH.get_cell_loc nbDup 1).1 = 1 ∧
    (ExNb.get_cell_loc nbDup 1).1 = 1 := by
  refine ⟨by decide, by decide, by decide, by decide⟩

/-- Claim C1, amended: the full-scan `get_cell_loc` of
`write_exercise_to_html.py` records as `start` the index of the LAST
markdown cell whose concatenated text matches the heading pattern for `n`
(or -1 if none), and as `end` the index of the LAST markdown cell that
matches the pattern for `n + 1` without matching the pattern for `n`
(or -1 if none): each later matching cell overwrites the recorded index. -/
theorem c1_amended_last_match (nb : Notebook) (n : Nat) :
    IsLastMatch (isStartMatch n) nb.cells (WEH.get_cell_loc nb n).1 ∧
    IsLastMatch (isEndMatch n) nb.cells (WEH.get_cell_loc nb n).2 :=
  ⟨weh_loc_fst_lastMatch nb n, weh_loc_snd_lastMatch nb n⟩

/-- Claim C2, counterexample: in `write_exercise_to_html.py`, for the
one-cell document `nbSolo` whose only heading is for exercise 1,
`get_cell_loc(nbSolo, 1)` returns end = -1 (the unresolved sentinel), not
the cell count 1; only the notebook-variant defaults end to the count. -/
theorem c2_counterexample :
    WEH.get_cell_loc nbSolo 1 = (0, -1) ∧
    nbSolo.cells.length = 1 ∧
    WEH.locReport nbSolo 1 = some LocError.endNotFound := by
  refine ⟨by decide, by decide, by decide⟩

/-- Claim C2, amended: when a start boundary is recorded and no cell is
recorded as an end boundary, the notebook-variant `get_cell_loc` returns a
resolved range whose end is the document's cell count, while the
`write_exercise_to_html.py` version returns the sentinel -1 for end. -/
theorem c2_amended_default_end (nb : Notebook) (n : Nat)
    (hstart : 0 < nb.cells.countP (isStartMatch n))
    (hend : nb.cells.countP (isEndMatch n) = 0) :
    (ExNb.get_cell_loc nb n).2 = Int.ofNat nb.cells.length ∧
    0 ≤ (ExNb.get_cell_loc nb n).1 ∧
    (WEH.get_cell_loc nb n).2 = -1 := by
  have hW2 : (WEH.get_cell_loc nb n).2 = -1 :=
    weh_snd_const n nb.cells 0 (-1, -1) hend
  obtain ⟨j, c, hget, hp, hd, hv⟩ := weh_fst_last n nb.cells 0 (-1, -1) hstart
  have hW1 : (WEH.get_cell_loc nb n).1 = Int.ofNat j := by
    simpa using hv
  have hloop : ExNb.locLoop n 0 nb.cells (-1, -1) = WEH.locLoop n 0 nb.cells (-1, -1) :=
    exnb_locLoop_noEnd n nb.cells 0 (-1) hend
  have hWpair : WEH.locLoop n 0 nb.cells (-1, -1) = (Int.ofNat j, -1) :=
    Prod.ext hW1 hW2
  have hE : ExNb.get_cell_loc nb n = (Int.ofNat j, Int.ofNat nb.cells.length) := by
    unfold ExNb.get_cell_loc
    rw [hloop, hWpair]
    have hne : (Int.ofNat j : Int) ≠ -1 := by rw [Int.ofNat_eq_coe]; omega
    simp [hne]
  rw [hE]
  refine ⟨rfl, ?_, hW2⟩
  show (0 : Int) ≤ Int.ofNat j
  rw [Int.ofNat_eq_coe]
  omega

/-- Claim C2, witness for the amended theorem at `nbSolo`. -/
theorem c2_witness :
    0 < nbSolo.cells.countP (isStartMatch 1) ∧
    nbSolo.cells.countP (isEndMatch 1) = 0 ∧
    (ExNb.get_cell_loc nbSolo 1).2 = Int.ofNat nbSolo.cells.length :=
  ⟨by decide, by decide, (c2_amended_default_end nbSolo 1 (by decide) (by decide)).1⟩

/-- Claim C3, counterexample: in `nbSwap` the heading for exercise 2
precedes the heading for exercise 1, so `get_cell_loc(nbSwap, 1)` computes
start = 1 ≥ end = 0; no error value reaches the caller (the function
returns the pair after printing) and extraction proceeds, silently
producing a document with the empty cell slice — in both versions. -/
theorem c3_counterexample :
    WEH.get_cell_loc nbSwap 1 = (1, 0) ∧
    WEH.locReport nbSwap 1 = some LocError.orderError ∧
    (WEH.get_exercise_from_lab nbSwap 1).cells = [] ∧
    ExNb.get_cell_loc nbSwap 1 = (1, 0) ∧
    (ExNb.get_exercise_from_lab nbSwap 1).cells = [] := by
  refine ⟨by decide, by decide, by decide, by decide, by decide⟩

/-- Claim C3, amended: when both boundaries resolve with start ≥ end,
`get_cell_loc` only prints an order-error diagnostic and still returns the
pair to its caller; extraction then proceeds and produces the (empty) cell
slice `cells[start:end]` rather than aborting. -/
theorem c3_amended_order_error (nb : Notebook) (n a b : Nat)
    (hloc : WEH.get_cell_loc nb n = (Int.ofNat a, Int.ofNat b)) (hba : b ≤ a) :
    WEH.locReport nb n = some LocError.orderError ∧
    (WEH.get_exercise_from_lab nb n).cells = [] := by
  have h1 : (Int.ofNat a : Int) ≠ -1 := by rw [Int.ofNat_eq_coe]; omega
  have h2 : (Int.ofNat b : Int) ≠ -1 := by rw [Int.ofNat_eq_coe]; omega
  have h3 : (Int.ofNat b : Int) ≤ Int.ofNat a := by
    rw [Int.ofNat_eq_coe, Int.ofNat_eq_coe]; omega
  constructor
  · unfold WEH.locReport report_ab
    rw [hloc]
    simp [h1, h2, h3, hba]
  · unfold WEH.get_exercise_from_lab
    rw [hloc]
    show pySlice nb.cells (Int.ofNat a) (Int.ofNat b) = []
    apply pySlice_nil_of_le
    rw [pySliceIdx_coe, pySliceIdx_coe]
    omega

/-- Claim C3, witness for the amended theorem at `nbSwap`. -/
theorem c3_witness :
    WEH.get_cell_loc nbSwap 1 = (Int.ofNat 1, Int.ofNat 0) ∧
    (WEH.get_exercise_from_lab nbSwap 1).cells = [] :=
  ⟨by decide, (c3_amended_order_error nbSwap 1 1 0 (by decide) (by decide)).2⟩

/-- Claim C4, counterexample: `nbNoStart` has no heading for exercise 1;
`get_cell_loc` returns start = -1 after printing, the caller proceeds, and
Python slice normalization maps the sentinel -1 to the valid document
position `len - 1 = 0`: extraction runs to completion and hands a document
(with empty cell list) to the renderer instead of signalling the caller. -/
theorem c4_counterexample :
    WEH.get_cell_loc nbNoStart 1 = (-1, 0) ∧
    WEH.locReport nbNoStart 1 = some LocError.startNotFound ∧
    WEH.get_exercise_from_lab nbNoStart 1 = { nbNoStart with cells := [] } ∧
    pySliceIdx nbNoStart.cells.length (-1) = nbNoStart.cells.length - 1 := by
  refine ⟨by decide, by decide, by decide, by decide⟩

/-- Claim C4, amended: when no markdown cell matches the heading pattern
for `n`, `get_cell_loc` prints the missing-start diagnostic and returns
(-1, b); extraction proceeds with the sentinel, which Python slicing
treats as the last-cell position, yielding a document with no cells. -/
theorem c4_amended_missing_start (nb : Notebook) (n : Nat)
    (h : (WEH.get_cell_loc nb n).1 = -1) :
    WEH.locReport nb n = some LocError.startNotFound ∧
    (WEH.get_exercise_from_lab nb n).cells = [] := by
  constructor
  · unfold WEH.locReport report_ab
    rw [h]
    simp
  · unfold WEH.get_exercise_from_lab
    show pySlice nb.cells (WEH.get_cell_loc nb n).1 (WEH.get_cell_loc nb n).2 = []
    rcases weh_loc_snd_cases nb n with hb | ⟨j, hj, hb⟩
    · rw [h, hb]
      exact pySlice_nil_of_le nb.cells (-1) (-1) (le_refl _)
    · rw [h, hb]
      apply pySlice_nil_of_le
      rw [pySliceIdx_coe]
      unfold pySliceIdx
      rw [if_pos (by omega), Int.ofNat_eq_coe]
      omega

/-- Claim C4, witness for the amended theorem at `nbNoStart`. -/
theorem c4_witness :
    (WEH.get_cell_loc nbNoStart 1).1 = -1 ∧
    (WEH.get_exercise_from_lab nbNoStart 1).cells = [] :=
  ⟨by decide, (c4_amended_missing_start nbNoStart 1 (by decide)).2⟩

/-- Claim C5: whenever `get_cell_loc` resolves a range `(a, b)` of
non-negative indices, single-exercise extraction returns a document whose
cell list is exactly the slice `cells[a:b]` of the original document and
whose remaining document-level metadata is unchanged — for both versions
of the pipeline. -/
theorem c5_extract_slice (nb : Notebook) (n a b : Nat) :
    (WEH.get_cell_loc nb n = (Int.ofNat a, Int.ofNat b) →
      (WEH.get_exercise_from_lab nb n).cells = (nb.cells.take b).drop a ∧
      (WEH.get_exercise_from_lab nb n).metadata = nb.metadata) ∧
    (ExNb.get_cell_loc nb n = (Int.ofNat a, Int.ofNat b) →
      (ExNb.get_exercise_from_lab nb n).cells = (nb.cells.take b).drop a ∧
      (ExNb.get_exercise_from_lab nb n).metadata = nb.metadata) := by
  constructor
  · intro h
    refine ⟨?_, rfl⟩
    show pySlice nb.cells (WEH.get_cell_loc nb n).1 (WEH.get_cell_loc nb n).2
        = (nb.cells.take b).drop a
    rw [h]
    exact pySlice_coe nb.cells a b
  · intro h
    refine ⟨?_, rfl⟩
    show pySlice nb.cells (ExNb.get_cell_loc nb n).1 (ExNb.get_cell_loc nb n).2
        = (nb.cells.take b).drop a
    rw [h]
    exact pySlice_coe nb.cells a b

/-- Claim C5, witness: the 6-cell end-to-end scenario, where both versions
resolve `locate(nbSix, 2) = (1, 4)` and extraction keeps cells 1–3. -/
theorem c5_witness :
    (WEH.get_exercise_from_lab nbSix 2).cells = (nbSix.cells.take 4).drop 1 ∧
    (ExNb.get_exercise_from_lab nbSix 2).cells = (nbSix.cells.take 4).drop 1 :=
  ⟨((c5_extract_slice nbSix 2 1 4).1 (by decide)).1,
   ((c5_extract_slice nbSix 2 1 4).2 (by decide)).1⟩

/-- Claim C6: multi-exercise extraction concatenates the per-exercise
slices in the order the exercise numbers were given — splitting the
request list splits the cell list (so each range is resolved independently
against the original document and overlapping slices are kept, not
deduplicated), a singleton request agrees with single-exercise extraction,
and the document metadata is preserved. -/
theorem c6_concat_extraction (nb : Notebook) (ns ms : List Nat) (n : Nat) :
    (ExNb.get_exercises_from_lab nb (ns ++ ms)).cells
      = (ExNb.get_exercises_from_lab nb ns).cells
        ++ (ExNb.get_exercises_from_lab nb ms).cells ∧
    (ExNb.get_exercises_from_lab nb [n]).cells
      = (ExNb.get_exercise_from_lab nb n).cells ∧
    (ExNb.get_exercises_from_lab nb ns).metadata = nb.metadata := by
  refine ⟨?_, ?_, rfl⟩
  · show ((((ns ++ ms).map (fun m => ExNb.get_cell_loc nb m)).map
        (fun ab => pySlice nb.cells ab.1 ab.2)).flatten) = _
    rw [List.map_append, List.map_append, List.flatten_append]
    rfl
  · show (([n].map (fun m => ExNb.get_cell_loc nb m)).map
        (fun ab => pySlice nb.cells ab.1 ab.2)).flatten = _
    simp [ExNb.get_exercise_from_lab]

/-- Claim C7: for positive page size `p`, pagination builds exactly
`L / p + 1` pages, page `k` holds `studentIds[k*p : k*p + p]`, the pages
concatenate back to the original id list in order (so no omission and no
duplication), and when `p` divides `L` the trailing page is empty. -/
theorem c7_pagination (ids : List String) (p : Nat) (hp : 0 < p) :
    (gid_pages ids p).length = ids.length / p + 1 ∧
    (∀ k, k < ids.length / p + 1 →
      (gid_pages ids p).getD k [] = (ids.drop (p * k)).take p) ∧
    (gid_pages ids p).flatten = ids ∧
    (ids.length % p = 0 → (gid_pages ids p).getD (ids.length / p) [] = []) := by
  have hpage : ∀ k, k < ids.length / p + 1 →
      (gid_pages ids p).getD k [] = (ids.drop (p * k)).take p := by
    intro k hk
    unfold gid_pages num_pages
    rw [List.getD_eq_getElem?_getD, List.getElem?_map, List.getElem?_range hk]
    show (ids.take (p * k + p)).drop (p * k) = (ids.drop (p * k)).take p
    rw [List.drop_take]
    congr 1
    omega
  refine ⟨?_, hpage, ?_, ?_⟩
  · simp [gid_pages, num_pages]
  · unfold gid_pages num_pages
    rw [pages_flatten_take]
    apply List.take_of_length_le
    calc ids.length = p * (ids.length / p) + ids.length % p :=
          (Nat.div_add_mod ids.length p).symm
      _ ≤ p * (ids.length / p) + p :=
          Nat.add_le_add_left (le_of_lt (Nat.mod_lt ids.length hp)) _
      _ = p * (ids.length / p + 1) := (Nat.mul_succ p _).symm
  · intro hdvd
    rw [hpage (ids.length / p) (by omega)]
    have hmul : p * (ids.length / p) = ids.length :=
      Nat.mul_div_cancel' (Nat.dvd_of_mod_eq_zero hdvd)
    rw [hmul, List.drop_of_length_le (le_refl _)]
    simp

/-- Claim C7, witness: three students, two per page. -/
theorem c7_witness :
    0 < 2 ∧ (gid_pages ["s1", "s2", "s3"] 2).flatten = ["s1", "s2", "s3"] :=
  ⟨by decide, (c7_pagination ["s1", "s2", "s3"] 2 (by decide)).2.2.1⟩

/-- Claim C8, counterexample: the two embeddings of `get_cell_loc` are not
extensionally equal — they differ already on `nbSolo` (start heading
present, end heading missing): the notebook variant returns `(0, 1)` (end
defaulted to the cell count) while `write_exercise_to_html.py` returns
`(0, -1)`. -/
theorem c8_counterexample :
    WEH.get_cell_loc nbSolo 1 = (0, -1) ∧
    ExNb.get_cell_loc nbSolo 1 = (0, 1) ∧
    ExNb.get_cell_loc nbSolo 1 ≠ WEH.get_cell_loc nbSolo 1 := by
  refine ⟨by decide, by decide, by decide⟩

/-- Claim C8, amended: the two versions agree on every document in which
the pattern for `n` matches at most one cell and the end test for `n + 1`
succeeds on exactly one cell — under these conditions the early break
cannot skip a later overwriting match and the end-default branch is not
taken, so the break is a pure optimization; in general the versions differ
(missing end heading, or duplicate matches after both indices are
positive). -/
theorem c8_amended_agree (nb : Notebook) (n : Nat)
    (h1 : nb.cells.countP (isStartMatch n) ≤ 1)
    (h2 : nb.cells.countP (isEndMatch n) = 1) :
    ExNb.get_cell_loc nb n = WEH.get_cell_loc nb n := by
  have hloop : ExNb.locLoop n 0 nb.cells (-1, -1) = WEH.locLoop n 0 nb.cells (-1, -1) :=
    exnb_locLoop_eq_weh n nb.cells 0 (-1) (-1)
      (fun hcon => absurd hcon (by omega)) (fun hcon => absurd hcon (by omega))
      h1 (by omega)
  obtain ⟨j, c, hget, hp, hd, hv⟩ := weh_snd_last n nb.cells 0 (-1, -1) (by omega)
  have hsnd : (WEH.locLoop n 0 nb.cells (-1, -1)).2 = Int.ofNat j := by simpa using hv
  have hne2 : ¬ ((WEH.locLoop n 0 nb.cells (-1, -1)).2 = -1) := by
    rw [hsnd, Int.ofNat_eq_coe]; omega
  unfold ExNb.get_cell_loc
  rw [hloop]
  by_cases hne1 : (WEH.locLoop n 0 nb.cells (-1, -1)).1 = -1
  · rw [if_pos hne1]
    rfl
  · rw [if_neg hne1, if_neg hne2]
    rfl

/-- Claim C8, witness for the amended theorem at `nbPair` (one start
match, one end match). -/
theorem c8_witness :
    nbPair.cells.countP (isStartMatch 1) ≤ 1 ∧
    nbPair.cells.countP (isEndMatch 1) = 1 ∧
    ExNb.get_cell_loc nbPair 1 = WEH.get_cell_loc nbPair 1 :=
  ⟨by decide, by decide, c8_amended_agree nbPair 1 (by decide) (by decide)⟩

/-- Claim C9: during page assembly each student id present in `lab_files`
contributes exactly one fragment — its `<h1>` heading followed by its
rendered body — in page order; each absent id contributes exactly one
warning naming it and nothing to the page body; the loop is total (no
fatal error), and the written page file is the header, the fragments of
the present ids, and the closing tag. -/
theorem c9_page_assembly (render : String → String)
    (lab_files : List (String × String)) (gid_page : List String) :
    (writePageBody render lab_files gid_page).1
      = concatAll (fragmentsOf render lab_files gid_page) ∧
    (writePageBody render lab_files gid_page).2
      = (gid_page.filter (fun gid => (lab_files.lookup gid).isNone)).map missingWarning ∧
    writePageFile render lab_files gid_page
      = pageHeader ++ concatAll (fragmentsOf render lab_files gid_page) ++ "</body>" := by
  refine ⟨writePageBody_fst render lab_files gid_page,
    writePageBody_snd render lab_files gid_page, ?_⟩
  unfold writePageFile
  rw [writePageBody_fst render lab_files gid_page]

/-- Claim C10: the heading test is an unanchored search with no boundary
after the exercise number, so whenever the decimal numeral of `m` begins
with the digits of `n`, any text matching the pattern for `m` also matches
the pattern for `n`, and any cell recorded as a start boundary for `m` is
also recorded as a start boundary for `n`; concretely, the document whose
only heading is `"## Exercise 10"` is assigned start index 0 for
exercise 1. -/
theorem c10_prefix_match (n m : Nat) (s : String) (c : Cell) :
    (beginsWith (toString n).data (toString m).data = true →
      (reSearch m s.data = true → reSearch n s.data = true) ∧
      (isStartMatch m c = true → isStartMatch n c = true)) ∧
    WEH.get_cell_loc nbTen 1 = (0, -1) := by
  constructor
  · intro h
    exact ⟨reSearch_mono n m h s.data, isStartMatch_mono n m c h⟩
  · decide

/-- Claim C10, witness: `n = 1`, `m = 10`, text `"## Exercise 10"`. -/
theorem c10_witness :
    beginsWith (toString 1).data (toString 10).data = true ∧
    reSearch 10 ("## Exercise 10").data = true ∧
    reSearch 1 ("## Exercise 10").data = true :=
  ⟨by decide, by decide,
    ((c10_prefix_match 1 10 "## Exercise 10" (mdCell "x")).1 (by decide)).1 (by decide)⟩
